import Mathlib

/-!
Shallow embedding of the access-control layer of caltechlibrary/wsfn:
the credential store (access.go: Access, Secrets), the password-hashing
dispatch (UpdateAccess, Login), the path-prefix gate (isAccessRoute,
Access.Handler, AccessHandler), the dump/load extension dispatch
(DumpAccess, LoadAccess), and route management from cmd/webaccess
(updateRoutes).

Byte sequences are `List Nat`.  Go string-to-bytes conversion and the
byte-level prefix/suffix tests of the strings package are modelled at the
character level: UTF-8 is a prefix code that preserves lexicographic
order, so a string is a byte-level prefix (suffix) of another iff it is a
character-level one, and character-level comparisons agree with byte-level
ones.  The cryptographic primitives (argon2, pbkdf2, md5, sha512 digests)
and the TOML/JSON codecs live in external libraries, not in this
repository; they enter the embedding as parameters (structures of
functions), and every theorem below holds for an arbitrary choice of
them.
-/

namespace Wsfn

/-- Byte sequences, as in Go byte slices. -/
abbrev Bytes := List Nat

/-- Models the Go conversion from string to byte slice.  Modelled at the
character level (see module comment); what the theorems use is that the
conversion is a fixed injective function applied identically at every
call site of the source. -/
def strBytes (s : String) : Bytes :=
  s.data.map Char.toNat

/-- Go strings.HasPrefix, modelled at the character level. -/
def hasPrefix (s p : String) : Bool :=
  p.data.isPrefixOf s.data

/-- Go strings.HasSuffix, modelled at the character level. -/
def hasSuffix (s p : String) : Bool :=
  p.data.isSuffixOf s.data

/-- The external hash primitives used by access.go.  The source fixes all
tuning parameters at the call sites (argon2.IDKey with time 1, memory
64 MiB, 4 lanes, 32-byte output; pbkdf2.Key with 4097 iterations, 32-byte
output over sha1), so each primitive is a function of password bytes and
salt only.  md5Digest and sha512Digest map the bytes written to the hash
state to its digest. -/
structure Kdf where
  argon2idKey : Bytes → Bytes → Bytes
  pbkdf2Key : Bytes → Bytes → Bytes
  md5Digest : Bytes → Bytes
  sha512Digest : Bytes → Bytes

/-- Go hash.Hash.Sum: Sum(arg) appends the digest of the bytes written so
far to arg and returns the result.  access.go calls it as h.Sum(nil) after
writing the password (md5 case) and as h.Sum(password) after writing
nothing (sha512 case). -/
def hashSum (digest : Bytes → Bytes) (written arg : Bytes) : Bytes :=
  arg ++ digest written

/-- access.go: Secrets holds one user salt and derived key. -/
structure Secrets where
  Salt : Bytes
  Key : Bytes
  deriving Repr, DecidableEq

/-- access.go: Access holds the basic-auth configuration.  The Go
map from username to secrets is modelled as an association list looked up
with List.lookup. -/
structure Access where
  AuthType : String
  AuthName : String
  Encryption : String
  Map : List (String × Secrets)
  Routes : List String
  deriving Repr, DecidableEq

/-- Go map assignment m[k] = v: replace the binding if the key is
present, otherwise add it. -/
def mapInsert (m : List (String × Secrets)) (u : String) (s : Secrets) :
    List (String × Secrets) :=
  match m with
  | [] => [(u, s)]
  | (k, v) :: rest =>
    if k = u then (u, s) :: rest else (k, v) :: mapInsert rest u s

/-- The switch on a.Encryption that appears verbatim in both
Access.UpdateAccess and Access.Login of access.go: derive a key from the
password and salt, or fail on an unknown encryption name (the default
branch of the switch). -/
def deriveKey (c : Kdf) (encryption password : String) (salt : Bytes) :
    Option Bytes :=
  if encryption = "argon2id" then some (c.argon2idKey (strBytes password) salt)
  else if encryption = "pbkdf2" then some (c.pbkdf2Key (strBytes password) salt)
  else if encryption = "md5" then some (hashSum c.md5Digest (strBytes password) [])
  else if encryption = "sha512" then some (hashSum c.sha512Digest [] (strBytes password))
  else none

/-- access.go Access.UpdateAccess: picks argon2id when Encryption is
unset, stores salt and derived key for the user and returns true, or
returns false leaving the store unchanged when the encryption name is
unknown.  The 32 random bytes produced by crypto/rand are passed in as
the salt argument (the entropy source is external); the error branch of
rand.Read is not modelled. -/
def Access.UpdateAccess (c : Kdf) (a : Access) (username password : String)
    (salt : Bytes) : Bool × Access :=
  let a1 := if a.Encryption = "" then { a with Encryption := "argon2id" } else a
  match deriveKey c a1.Encryption password salt with
  | some key => (true, { a1 with Map := mapInsert a1.Map username ⟨salt, key⟩ })
  | none => (false, a1)

/-- access.go Access.Login: false for an unknown user, false for an
unknown encryption name, otherwise re-derive the key from the supplied
password and the stored salt and compare with the stored key
(bytes.Compare(secret.Key, u.Key) == 0). -/
def Access.Login (c : Kdf) (a : Access) (username password : String) : Bool :=
  match a.Map.lookup username with
  | none => false
  | some u =>
    match deriveKey c a.Encryption password u.Salt with
    | none => false
    | some key => key == u.Key

/-- access.go Access.isAccessRoute: the path falls under some configured
route, by a plain string prefix test. -/
def Access.isAccessRoute (a : Access) (p : String) : Bool :=
  a.Routes.any (fun route => hasPrefix p route)

/-- An inbound HTTP request as the gate sees it: the URL path and the
result of req.BasicAuth(), the standard base64 decoding of the
Authorization header performed by net/http (none when the header is
absent or undecodable). -/
structure Request where
  path : String
  basicAuth : Option (String × String)
  deriving Repr, DecidableEq

/-- The HTTP response the gate writes when it rejects a request. -/
structure Response where
  status : Nat
  headers : List (String × String)
  body : String
  deriving Repr, DecidableEq

/-- What the gate middleware does with one request: either forward it to
the downstream handler (carrying the response headers already set on the
writer, and the request exactly as passed on), or reject it with a
complete response and never call downstream. -/
inductive GateResult where
  | forwarded (headersSet : List (String × String)) (req : Request)
  | rejected (resp : Response)
  deriving Repr, DecidableEq

/-- Go http.Error(w, msg, code): sets Content-Type and
X-Content-Type-Options on top of the headers already set on the writer
and writes msg followed by a newline. -/
def httpError (headersSet : List (String × String)) (code : Nat)
    (msg : String) : Response :=
  { status := code
    headers := headersSet ++
      [("Content-Type", "text/plain; charset=utf-8"),
       ("X-Content-Type-Options", "nosniff")]
    body := msg ++ "\n" }

/-- access.go: the header value written by
fmt.Sprintf with format Basic realm=%q applied to AuthName. -/
def basicRealm (authName : String) : String :=
  "Basic realm=\"" ++ authName ++ "\""

/-- access.go Access.Handler: nil receiver gives a pure passthrough;
otherwise, on a path under a configured route, set the WWW-Authenticate
header, reject with http.Error 401 when credentials are absent or Login
fails, and fall through to the downstream handler otherwise. -/
def Access.Handler (c : Kdf) (a : Option Access) (req : Request) : GateResult :=
  match a with
  | none => GateResult.forwarded [] req
  | some a =>
    if a.isAccessRoute req.path then
      let hdrs := [("WWW-Authenticate", basicRealm a.AuthName)]
      match req.basicAuth with
      | none => GateResult.rejected (httpError hdrs 401 "Unauthorized")
      | some (username, password) =>
        if Access.Login c a username password then GateResult.forwarded hdrs req
        else GateResult.rejected (httpError hdrs 401 "Unauthorized")
    else GateResult.forwarded [] req

/-- access.go AccessHandler: the free-function variant of the gate,
duplicated line for line from Access.Handler in the source. -/
def AccessHandler (c : Kdf) (a : Option Access) (req : Request) : GateResult :=
  match a with
  | none => GateResult.forwarded [] req
  | some a =>
    if a.isAccessRoute req.path then
      let hdrs := [("WWW-Authenticate", basicRealm a.AuthName)]
      match req.basicAuth with
      | none => GateResult.rejected (httpError hdrs 401 "Unauthorized")
      | some (username, password) =>
        if Access.Login c a username password then GateResult.forwarded hdrs req
        else GateResult.rejected (httpError hdrs 401 "Unauthorized")
    else GateResult.forwarded [] req

/-- The external TOML and JSON codecs (BurntSushi/toml and encoding/json)
that access.go delegates to, as functions from store to file contents and
back. -/
structure FileCodecs where
  encodeTOML : Access → String
  decodeTOML : String → Except String Access
  encodeJSON : Access → String
  decodeJSON : String → Except String Access

/-- access.go Access.DumpAccess: dispatch on the file extension, encode
with the matching codec (the file-system write itself is external; the
produced contents are returned), or fail on an unsupported format. -/
def Access.DumpAccess (fc : FileCodecs) (a : Access) (fName : String) :
    Except String String :=
  if hasSuffix fName ".toml" then Except.ok (fc.encodeTOML a)
  else if hasSuffix fName ".json" then Except.ok (fc.encodeJSON a)
  else Except.error (fName ++ ", unsupported format")

/-- access.go LoadAccess: dispatch on the file extension and decode the
file contents with the matching codec, or fail on an unsupported
format. -/
def LoadAccess (fc : FileCodecs) (fName : String) (contents : String) :
    Except String Access :=
  if hasSuffix fName ".toml" then fc.decodeTOML contents
  else if hasSuffix fName ".json" then fc.decodeJSON contents
  else Except.error (fName ++ ", unsupported format")

/-- Field-level agreement of two stores: identical scalar fields,
identical secrets for every username, identical routes. -/
def Access.FieldEq (a b : Access) : Prop :=
  a.AuthType = b.AuthType ∧ a.AuthName = b.AuthName ∧
  a.Encryption = b.Encryption ∧
  (∀ u, a.Map.lookup u = b.Map.lookup u) ∧ a.Routes = b.Routes

/-- cmd/webaccess updateRoutes, normalization step: force a leading and a
trailing slash on the new route. -/
def normalizeRoute (arg : String) : String :=
  let arg1 := if hasPrefix arg "/" then arg else "/" ++ arg
  if hasSuffix arg1 "/" then arg1 else arg1 ++ "/"

/-- Go sort.Strings: sort in byte-lexicographic order (which for UTF-8
text agrees with the character-lexicographic order of String). -/
def sortStrings (l : List String) : List String :=
  List.insertionSort (fun a b => a ≤ b) l

/-- cmd/webaccess updateRoutes, one argument: normalize, fail when the
new route and an existing one are prefixes of one another, otherwise
append and re-sort. -/
def addRoute (routes : List String) (arg : String) :
    Except String (List String) :=
  let arg2 := normalizeRoute arg
  if routes.any (fun route => hasPrefix arg2 route || hasPrefix route arg2)
  then Except.error (arg2 ++ " collides with an existing route")
  else Except.ok (sortStrings (routes ++ [arg2]))

/-- cmd/webaccess updateRoutes over its whole argument list: apply
addRoute left to right, stopping at the first collision. -/
def updateRoutes (routes : List String) (args : List String) :
    Except String (List String) :=
  match args with
  | [] => Except.ok routes
  | arg :: rest =>
    match addRoute routes arg with
    | Except.ok routes1 => updateRoutes routes1 rest
    | Except.error e => Except.error e

/-- The route-table invariant of the spec: every route starts with a
slash and no two routes are prefixes of one another. -/
def RoutesWellFormed (routes : List String) : Prop :=
  (∀ r ∈ routes, hasPrefix r "/" = true) ∧
  routes.Pairwise (fun r s => hasPrefix r s = false ∧ hasPrefix s r = false)

lemma lookup_mapInsert (m : List (String × Secrets)) (u : String)
    (s : Secrets) : (mapInsert m u s).lookup u = some s := by
  induction m with
  | nil => simp [mapInsert, List.lookup]
  | cons kv rest ih =>
    obtain ⟨k, v⟩ := kv
    by_cases h : k = u
    · simp [mapInsert, h, List.lookup]
    · have h2 : (u == k) = false := by
        simp only [beq_eq_false_iff_ne, ne_eq]
        exact fun e => h e.symm
      simp [mapInsert, h, List.lookup, ih, h2]

lemma fieldEq_refl (a : Access) : Access.FieldEq a a :=
  ⟨rfl, rfl, rfl, fun _ => rfl, rfl⟩

lemma hasPrefix_iff (s p : String) :
    hasPrefix s p = true ↔ p.data <+: s.data := by
  simp [hasPrefix, List.isPrefixOf_iff_prefix]

lemma hasSuffix_iff (s p : String) :
    hasSuffix s p = true ↔ p.data <:+ s.data := by
  simp [hasSuffix, List.isSuffixOf_iff_suffix]

lemma hasPrefix_slash_append (s : String) :
    hasPrefix ("/" ++ s) "/" = true := by
  rw [hasPrefix_iff, String.data_append]
  exact List.prefix_append _ _

lemma hasPrefix_append_right (s t p : String) (h : hasPrefix s p = true) :
    hasPrefix (s ++ t) p = true := by
  rw [hasPrefix_iff] at h ⊢
  rw [String.data_append]
  exact h.trans (List.prefix_append _ _)

lemma hasSuffix_append_slash (s : String) :
    hasSuffix (s ++ "/") "/" = true := by
  rw [hasSuffix_iff, String.data_append]
  exact List.suffix_append _ _

lemma deriveKey_isSome (c : Kdf) (enc pw : String) (salt : Bytes)
    (h : enc = "argon2id" ∨ enc = "pbkdf2" ∨ enc = "md5" ∨ enc = "sha512") :
    ∃ k, deriveKey c enc pw salt = some k := by
  rcases h with h | h | h | h <;> subst h <;> simp [deriveKey]

lemma updateAccess_of_deriveKey (c : Kdf) (a : Access) (u pw : String)
    (salt key : Bytes) (hne : a.Encryption ≠ "")
    (hd : deriveKey c a.Encryption pw salt = some key) :
    Access.UpdateAccess c a u pw salt =
      (true, { a with Map := mapInsert a.Map u ⟨salt, key⟩ }) := by
  unfold Access.UpdateAccess
  simp [hne, hd]

/-- C1: on a store whose Encryption names a known algorithm, enrolling
alice with secret123 returns true, a subsequent Login with the same
password returns true, and a Login with any password whose derived key
differs from the stored key returns false. -/
theorem enroll_then_login (c : Kdf) (a : Access) (salt : Bytes)
    (henc : a.Encryption = "argon2id" ∨ a.Encryption = "pbkdf2" ∨
      a.Encryption = "md5" ∨ a.Encryption = "sha512") :
    (Access.UpdateAccess c a "alice" "secret123" salt).1 = true ∧
    Access.Login c (Access.UpdateAccess c a "alice" "secret123" salt).2
      "alice" "secret123" = true ∧
    ∀ p s,
      (Access.UpdateAccess c a "alice" "secret123" salt).2.Map.lookup "alice" =
        some s →
      deriveKey c (Access.UpdateAccess c a "alice" "secret123" salt).2.Encryption
        p s.Salt ≠ some s.Key →
      Access.Login c (Access.UpdateAccess c a "alice" "secret123" salt).2
        "alice" p = false := by
  have hne : a.Encryption ≠ "" := by
    rcases henc with h | h | h | h <;> rw [h] <;> decide
  obtain ⟨k, hk⟩ := deriveKey_isSome c a.Encryption "secret123" salt henc
  have hupd := updateAccess_of_deriveKey c a "alice" "secret123" salt k hne hk
  refine ⟨by rw [hupd], ?_, ?_⟩
  · rw [hupd]
    simp [Access.Login, lookup_mapInsert, hk]
  · intro p s hs hd2
    rw [hupd] at hs hd2 ⊢
    rw [lookup_mapInsert] at hs
    obtain rfl : (⟨salt, k⟩ : Secrets) = s := by injection hs
    cases hd3 : deriveKey c a.Encryption p salt with
    | none => simp [Access.Login, lookup_mapInsert, hd3]
    | some key2 =>
      have hk2 : key2 ≠ k := by
        intro e
        apply hd2
        simpa [e] using hd3
      simp [Access.Login, lookup_mapInsert, hd3, hk2]

/-- Concrete hash primitives used for witnesses: any functions with the
right shapes will do, since the theorems hold for every Kdf. -/
def testKdf : Kdf :=
  ⟨fun pw salt => pw ++ salt, fun pw salt => salt ++ pw,
   fun w => 0 :: w, fun w => 1 :: w⟩

/-- A small concrete store with a known algorithm. -/
def accessExample : Access :=
  ⟨"Basic", "Private Area", "argon2id", [], ["/secure/"]⟩

theorem enroll_then_login_witness :
    (Access.UpdateAccess testKdf accessExample "alice" "secret123" [7, 7]).1 =
      true ∧
    Access.Login testKdf
      (Access.UpdateAccess testKdf accessExample "alice" "secret123" [7, 7]).2
      "alice" "secret123" = true ∧
    Access.Login testKdf
      (Access.UpdateAccess testKdf accessExample "alice" "secret123" [7, 7]).2
      "alice" "wrong" = false := by
  obtain ⟨h1, h2, h3⟩ :=
    enroll_then_login testKdf accessExample [7, 7] (Or.inl rfl)
  exact ⟨h1, h2, h3 "wrong" ⟨[7, 7], strBytes "secret123" ++ [7, 7]⟩
    (by decide) (by decide)⟩

/-- C3: a non-empty Encryption outside the four known names makes
UpdateAccess return false with the store unchanged (in particular no
entry is added and no default algorithm is substituted), and makes Login
return false for every username and password. -/
theorem unknown_encryption_fails_closed (c : Kdf) (a : Access)
    (h0 : a.Encryption ≠ "") (h1 : a.Encryption ≠ "argon2id")
    (h2 : a.Encryption ≠ "pbkdf2") (h3 : a.Encryption ≠ "md5")
    (h4 : a.Encryption ≠ "sha512") :
    (∀ u pw salt, Access.UpdateAccess c a u pw salt = (false, a)) ∧
    (∀ u pw, Access.Login c a u pw = false) := by
  have hd : ∀ pw salt, deriveKey c a.Encryption pw salt = none := by
    intro pw salt
    simp [deriveKey, h1, h2, h3, h4]
  constructor
  · intro u pw salt
    unfold Access.UpdateAccess
    simp [h0, hd]
  · intro u pw
    cases hl : a.Map.lookup u with
    | none => simp [Access.Login, hl]
    | some s => simp [Access.Login, hl, hd]

/-- A concrete store with an unrecognized algorithm name. -/
def badEncExample : Access :=
  ⟨"Basic", "Private Area", "rot13",
   [("alice", ⟨[7, 7], [1, 2, 3]⟩)], ["/secure/"]⟩

theorem unknown_encryption_fails_closed_witness :
    Access.UpdateAccess testKdf badEncExample "alice" "pw" [1] =
      (false, badEncExample) ∧
    Access.Login testKdf badEncExample "alice" "pw" = false := by
  obtain ⟨hu, hl⟩ := unknown_encryption_fails_closed testKdf badEncExample
    (by decide) (by decide) (by decide) (by decide) (by decide)
  exact ⟨hu "alice" "pw" [1], hl "alice" "pw"⟩

/-- C9: under the sha512 setting the stored key is the password bytes
followed by the digest of the empty input, so the password is recoverable
verbatim as the first len(password) bytes of the key, and the generated
salt has no effect on the key. -/
theorem sha512_key_contains_password (c : Kdf) (a : Access) (u pw : String)
    (salt : Bytes) (h : a.Encryption = "sha512") :
    (Access.UpdateAccess c a u pw salt).1 = true ∧
    (Access.UpdateAccess c a u pw salt).2.Map.lookup u =
      some ⟨salt, strBytes pw ++ c.sha512Digest []⟩ ∧
    (∀ s, (Access.UpdateAccess c a u pw salt).2.Map.lookup u = some s →
      s.Key.take (strBytes pw).length = strBytes pw) ∧
    ∀ salt2,
      ((Access.UpdateAccess c a u pw salt2).2.Map.lookup u).map Secrets.Key =
      ((Access.UpdateAccess c a u pw salt).2.Map.lookup u).map Secrets.Key := by
  have hne : a.Encryption ≠ "" := by rw [h]; decide
  have hd : ∀ s2, deriveKey c a.Encryption pw s2 =
      some (strBytes pw ++ c.sha512Digest []) := by
    intro s2
    simp [deriveKey, h, hashSum]
  have hupd := fun s2 =>
    updateAccess_of_deriveKey c a u pw s2 (strBytes pw ++ c.sha512Digest [])
      hne (hd s2)
  refine ⟨by rw [hupd salt], ?_, ?_, ?_⟩
  · rw [hupd salt]
    simp [lookup_mapInsert]
  · intro s hs
    rw [hupd salt] at hs
    rw [lookup_mapInsert] at hs
    obtain rfl : (⟨salt, strBytes pw ++ c.sha512Digest []⟩ : Secrets) = s := by
      injection hs
    exact List.take_left _ _
  · intro salt2
    rw [hupd salt, hupd salt2]
    simp [lookup_mapInsert]

/-- A concrete store using sha512. -/
def sha512Example : Access :=
  ⟨"Basic", "Private Area", "sha512", [], ["/secure/"]⟩

theorem sha512_key_contains_password_witness :
    (Access.UpdateAccess testKdf sha512Example "alice" "pw" [7, 7]).1 = true ∧
    (Access.UpdateAccess testKdf sha512Example "alice" "pw" [7, 7]).2.Map.lookup
      "alice" = some ⟨[7, 7], strBytes "pw" ++ testKdf.sha512Digest []⟩ ∧
    ((Access.UpdateAccess testKdf sha512Example "alice" "pw" [7, 7]).2.Map.lookup
      "alice").map Secrets.Key =
    ((Access.UpdateAccess testKdf sha512Example "alice" "pw" [9, 9]).2.Map.lookup
      "alice").map Secrets.Key := by
  obtain ⟨h1, h2, _, h4⟩ :=
    sha512_key_contains_password testKdf sha512Example "alice" "pw" [7, 7] rfl
  exact ⟨h1, h2, (h4 [9, 9]).symm⟩

/-- C2: on a non-nil store, a request on a protected path with absent
credentials or failing Login is rejected with status 401 and a
WWW-Authenticate header whose value contains the configured realm, and
the downstream handler is not invoked; a request under no configured
route is forwarded downstream. -/
theorem gate_enforces_routes (c : Kdf) (a : Access) (req : Request) :
    (Access.isAccessRoute a req.path = true →
      (req.basicAuth = none ∨
        (∃ u p, req.basicAuth = some (u, p) ∧ Access.Login c a u p = false)) →
      ∃ resp, Access.Handler c (some a) req = GateResult.rejected resp ∧
        resp.status = 401 ∧
        (∃ v l r, ("WWW-Authenticate", v) ∈ resp.headers ∧
          v = l ++ a.AuthName ++ r) ∧
        ∀ hs q, Access.Handler c (some a) req ≠ GateResult.forwarded hs q) ∧
    (Access.isAccessRoute a req.path = false →
      Access.Handler c (some a) req = GateResult.forwarded [] req) := by
  constructor
  · intro hroute hcred
    have heq : Access.Handler c (some a) req =
        GateResult.rejected
          (httpError [("WWW-Authenticate", basicRealm a.AuthName)] 401
            "Unauthorized") := by
      rcases hcred with hnone | ⟨u, p, hsome, hlog⟩
      · simp [Access.Handler, hroute, hnone]
      · simp [Access.Handler, hroute, hsome, hlog]
    refine ⟨_, heq, rfl,
      ⟨basicRealm a.AuthName, "Basic realm=\"", "\"", ?_, rfl⟩, ?_⟩
    · simp [httpError]
    · intro hs q hcon
      rw [heq] at hcon
      exact GateResult.noConfusion hcon
  · intro hroute
    simp [Access.Handler, hroute]

theorem gate_enforces_routes_witness :
    (∃ resp, Access.Handler testKdf (some accessExample)
        ⟨"/secure/data", none⟩ = GateResult.rejected resp ∧
        resp.status = 401 ∧
        (∃ v l r, ("WWW-Authenticate", v) ∈ resp.headers ∧
          v = l ++ accessExample.AuthName ++ r) ∧
        ∀ hs q, Access.Handler testKdf (some accessExample)
          ⟨"/secure/data", none⟩ ≠ GateResult.forwarded hs q) ∧
    Access.Handler testKdf (some accessExample) ⟨"/public/data", none⟩ =
      GateResult.forwarded [] ⟨"/public/data", none⟩ :=
  ⟨(gate_enforces_routes testKdf accessExample ⟨"/secure/data", none⟩).1
      (by decide) (Or.inl rfl),
    (gate_enforces_routes testKdf accessExample ⟨"/public/data", none⟩).2
      (by decide)⟩

/-- C4: Login on an absent username returns false, and the full gate
response for an unknown username is identical to the response for a known
username with a wrong password, on every path; on a protected path both
are the generic 401. -/
theorem unknown_user_indistinguishable (c : Kdf) (a : Access) (path : String)
    (u1 p1 u2 p2 : String)
    (h1 : a.Map.lookup u1 = none)
    (h2s : ∃ s, a.Map.lookup u2 = some s ∧
      deriveKey c a.Encryption p2 s.Salt ≠ some s.Key) :
    Access.Login c a u1 p1 = false ∧
    (Access.isAccessRoute a path = true →
      Access.Handler c (some a) ⟨path, some (u1, p1)⟩ =
        Access.Handler c (some a) ⟨path, some (u2, p2)⟩ ∧
      Access.Handler c (some a) ⟨path, some (u1, p1)⟩ =
        GateResult.rejected
          (httpError [("WWW-Authenticate", basicRealm a.AuthName)] 401
            "Unauthorized")) := by
  have hl1 : Access.Login c a u1 p1 = false := by simp [Access.Login, h1]
  obtain ⟨s, hs, hne⟩ := h2s
  have hl2 : Access.Login c a u2 p2 = false := by
    cases hd : deriveKey c a.Encryption p2 s.Salt with
    | none => simp [Access.Login, hs, hd]
    | some k =>
      have hk : k ≠ s.Key := by
        intro e
        apply hne
        rw [hd, e]
      simp [Access.Login, hs, hd, hk]
  refine ⟨hl1, fun hroute => ⟨?_, ?_⟩⟩
  · simp [Access.Handler, hroute, hl1, hl2]
  · simp [Access.Handler, hroute, hl1]

/-- A store with alice enrolled under argon2id (key derived with
testKdf). -/
def enrolledExample : Access :=
  ⟨"Basic", "Private Area", "argon2id",
   [("alice", ⟨[7, 7], strBytes "secret123" ++ [7, 7]⟩)], ["/secure/"]⟩

theorem unknown_user_indistinguishable_witness :
    Access.Login testKdf enrolledExample "nobody" "anything" = false ∧
    Access.Handler testKdf (some enrolledExample)
      ⟨"/secure/data", some ("nobody", "anything")⟩ =
      Access.Handler testKdf (some enrolledExample)
        ⟨"/secure/data", some ("alice", "wrong")⟩ ∧
    Access.Handler testKdf (some enrolledExample)
      ⟨"/secure/data", some ("nobody", "anything")⟩ =
      GateResult.rejected
        (httpError [("WWW-Authenticate", basicRealm enrolledExample.AuthName)]
          401 "Unauthorized") := by
  obtain ⟨h1, h23⟩ := unknown_user_indistinguishable testKdf enrolledExample
    "/secure/data" "nobody" "anything" "alice" "wrong" (by decide)
    ⟨⟨[7, 7], strBytes "secret123" ++ [7, 7]⟩, by decide, by decide⟩
  exact ⟨h1, (h23 (by decide)).1, (h23 (by decide)).2⟩

/-- C7: with a nil store both gate constructors forward every request to
the downstream handler unmodified. -/
theorem nil_store_passthrough (c : Kdf) (req : Request) :
    Access.Handler c none req = GateResult.forwarded [] req ∧
    AccessHandler c none req = GateResult.forwarded [] req :=
  ⟨rfl, rfl⟩

/-- C10: the two gate constructors agree on every store, request and
downstream condition: they compute the same GateResult. -/
theorem handler_accessHandler_equiv (c : Kdf) (a : Option Access)
    (req : Request) :
    Access.Handler c a req = AccessHandler c a req :=
  rfl

/-- C5: for codecs that round-trip the store at the field level (as the
external TOML and JSON libraries do), DumpAccess to a path with a
recognized extension followed by LoadAccess from that path succeeds and
yields a store with identical scalar fields, identical secrets per user
and identical routes: both directions dispatch on the extension the same
way and therefore use matching codecs. -/
theorem dump_load_roundtrip (fc : FileCodecs) (a bT bJ : Access)
    (fName : String)
    (hT : fc.decodeTOML (fc.encodeTOML a) = Except.ok bT)
    (hTeq : Access.FieldEq a bT)
    (hJ : fc.decodeJSON (fc.encodeJSON a) = Except.ok bJ)
    (hJeq : Access.FieldEq a bJ)
    (hrec : hasSuffix fName ".toml" = true ∨ hasSuffix fName ".json" = true) :
    ∃ contents b, Access.DumpAccess fc a fName = Except.ok contents ∧
      LoadAccess fc fName contents = Except.ok b ∧ Access.FieldEq a b := by
  by_cases ht : hasSuffix fName ".toml" = true
  · exact ⟨fc.encodeTOML a, bT, by simp [Access.DumpAccess, ht],
      by simp [LoadAccess, ht, hT], hTeq⟩
  · have hj : hasSuffix fName ".json" = true := by
      rcases hrec with h | h
      · exact absurd h ht
      · exact h
    have ht2 : hasSuffix fName ".toml" = false := by
      cases hx : hasSuffix fName ".toml"
      · rfl
      · exact absurd hx ht
    exact ⟨fc.encodeJSON a, bJ, by simp [Access.DumpAccess, ht2, hj],
      by simp [LoadAccess, ht2, hj, hJ], hJeq⟩

/-- Trivial concrete codecs for the witness: constant file contents,
decoding to the one store the witness uses. -/
def testCodecs : FileCodecs :=
  ⟨fun _ => "serialized", fun _ => Except.ok accessExample,
   fun _ => "serialized", fun _ => Except.ok accessExample⟩

theorem dump_load_roundtrip_witness :
    ∃ contents b,
      Access.DumpAccess testCodecs accessExample "access.toml" =
        Except.ok contents ∧
      LoadAccess testCodecs "access.toml" contents = Except.ok b ∧
      Access.FieldEq accessExample b :=
  dump_load_roundtrip testCodecs accessExample accessExample accessExample
    "access.toml" rfl (fieldEq_refl _) rfl (fieldEq_refl _)
    (Or.inl (by decide))

lemma normalizeRoute_slash (arg : String) :
    hasPrefix (normalizeRoute arg) "/" = true ∧
    hasSuffix (normalizeRoute arg) "/" = true := by
  unfold normalizeRoute
  have step2 : ∀ s : String, hasPrefix s "/" = true →
      hasPrefix (if hasSuffix s "/" then s else s ++ "/") "/" = true ∧
      hasSuffix (if hasSuffix s "/" then s else s ++ "/") "/" = true := by
    intro s hs
    by_cases h : hasSuffix s "/" = true
    · simp [h, hs]
    · simp only [h, if_false, Bool.false_eq_true]
      exact ⟨hasPrefix_append_right s "/" "/" hs, hasSuffix_append_slash s⟩
  by_cases h1 : hasPrefix arg "/" = true
  · simpa only [h1, if_true] using step2 arg h1
  · simpa only [h1, if_false, Bool.false_eq_true] using
      step2 ("/" ++ arg) (hasPrefix_slash_append arg)

/-- C6: addRoute normalizes the new route to start and end with a slash,
fails with a collision error when the normalized route and an existing
one are prefixes of one another, and otherwise inserts it leaving the
route list sorted; the well-formedness invariant (all routes slash-led,
no two routes mutual prefixes) is preserved by every successful
insertion. -/
theorem addRoute_spec (routes : List String) (arg : String) :
    hasPrefix (normalizeRoute arg) "/" = true ∧
    hasSuffix (normalizeRoute arg) "/" = true ∧
    ((∃ r ∈ routes, hasPrefix (normalizeRoute arg) r = true ∨
        hasPrefix r (normalizeRoute arg) = true) →
      ∃ e, addRoute routes arg = Except.error e) ∧
    ((∀ r ∈ routes, hasPrefix (normalizeRoute arg) r = false ∧
        hasPrefix r (normalizeRoute arg) = false) →
      addRoute routes arg =
        Except.ok (sortStrings (routes ++ [normalizeRoute arg])) ∧
      List.Sorted (fun x y => x ≤ y)
        (sortStrings (routes ++ [normalizeRoute arg])) ∧
      (sortStrings (routes ++ [normalizeRoute arg])).Perm
        (routes ++ [normalizeRoute arg]) ∧
      (RoutesWellFormed routes →
        RoutesWellFormed (sortStrings (routes ++ [normalizeRoute arg])))) := by
  obtain ⟨hp, hsuf⟩ := normalizeRoute_slash arg
  refine ⟨hp, hsuf, ?_, ?_⟩
  · rintro ⟨r, hr, hcol⟩
    have hany : routes.any (fun route =>
        hasPrefix (normalizeRoute arg) route ||
        hasPrefix route (normalizeRoute arg)) = true := by
      rw [List.any_eq_true]
      refine ⟨r, hr, ?_⟩
      rcases hcol with h | h <;> simp [h]
    exact ⟨normalizeRoute arg ++ " collides with an existing route",
      by simp [addRoute, hany]⟩
  · intro hno
    have hany : routes.any (fun route =>
        hasPrefix (normalizeRoute arg) route ||
        hasPrefix route (normalizeRoute arg)) = false := by
      rw [List.any_eq_false]
      intro r hr
      simp [(hno r hr).1, (hno r hr).2]
    refine ⟨by simp [addRoute, hany], List.sorted_insertionSort _ _,
      List.perm_insertionSort _ _, ?_⟩
    rintro ⟨hslash, hpair⟩
    constructor
    · intro r hrr
      have hmem : r ∈ routes ++ [normalizeRoute arg] :=
        (List.perm_insertionSort _ _).mem_iff.mp hrr
      rcases List.mem_append.mp hmem with h | h
      · exact hslash r h
      · rw [List.mem_singleton] at h
        subst h
        exact hp
    · unfold sortStrings
      rw [List.Perm.pairwise_iff (fun h => ⟨h.2, h.1⟩)
        (List.perm_insertionSort _ _), List.pairwise_append]
      refine ⟨hpair, by simp, ?_⟩
      intro x hx y hy
      rw [List.mem_singleton] at hy
      subst hy
      exact ⟨(hno x hx).2, (hno x hx).1⟩

theorem addRoute_spec_witness :
    (∃ e, addRoute ["/api/"] "api/v1" = Except.error e) ∧
    addRoute ["/api/"] "other" =
      Except.ok (sortStrings (["/api/"] ++ [normalizeRoute "other"])) ∧
    List.Sorted (fun x y => x ≤ y)
      (sortStrings (["/api/"] ++ [normalizeRoute "other"])) ∧
    RoutesWellFormed (sortStrings (["/api/"] ++ [normalizeRoute "other"])) := by
  obtain ⟨_, _, herr, _⟩ := addRoute_spec ["/api/"] "api/v1"
  obtain ⟨_, _, _, hok⟩ := addRoute_spec ["/api/"] "other"
  obtain ⟨h1, h2, _, h4⟩ := hok (by decide)
  refine ⟨herr ⟨"/api/", by simp, Or.inl (by decide)⟩, h1, h2, h4 ?_⟩
  exact ⟨by decide, by simp [List.pairwise_singleton]⟩

end Wsfn
